import Mathlib

/-!
Shallow embedding of the loadcell web analyzer (`src/index.tsx`).
JavaScript numbers are modelled as exact rationals (`ℚ`); with exact
arithmetic the `isNaN` guards of the source never fire, and the square
root in the regression's `rSquared` computation is eliminated by squaring
(the product under the root is a product of two variance terms, each
nonnegative, so `Math.sqrt(prod) === 0` exactly when `prod = 0`, and
`r^2 = numeratorR^2 / prod`).
-/

namespace Loadcell

/-- Category of a channel: the source's union type
`'none' | 'x' | '-x' | 'y' | '-y'`. -/
inductive Category where
  | none
  | x
  | negx
  | y
  | negy
deriving DecidableEq, Repr

/-- The `Scale` interface of the source (one channel). -/
structure Scale where
  id : ℕ
  name : String
  rawValue : ℚ
  tareValue : ℚ
  calibrationSlope : ℚ
  category : Category
deriving DecidableEq, Repr

/-- The `CalibrationPoint` interface of the source. -/
structure CalibrationPoint where
  knownWeight : ℚ
  rawValue : ℚ
deriving DecidableEq, Repr

/-- The `LogEntry` interface of the source. -/
structure LogEntry where
  totalX : ℚ
  totalY : ℚ
  processedValues : List ℚ
deriving DecidableEq, Repr

/-- The `CalibrationResult` type of the source. -/
structure CalibrationResult where
  slope : ℚ
  rSquared : ℚ
deriving DecidableEq, Repr

/-- An `{ x, y }` data point as passed to `calculateLinearRegression`. -/
structure Point where
  x : ℚ
  y : ℚ
deriving DecidableEq, Repr

/-- `sumX` accumulated by the `forEach` loop of `calculateLinearRegression`. -/
def sumX (points : List Point) : ℚ := (points.map (fun p => p.x)).sum

/-- `sumY` accumulated by the `forEach` loop of `calculateLinearRegression`. -/
def sumY (points : List Point) : ℚ := (points.map (fun p => p.y)).sum

/-- `sumXY` accumulated by the `forEach` loop of `calculateLinearRegression`. -/
def sumXY (points : List Point) : ℚ := (points.map (fun p => p.x * p.y)).sum

/-- `sumX2` accumulated by the `forEach` loop of `calculateLinearRegression`. -/
def sumX2 (points : List Point) : ℚ := (points.map (fun p => p.x * p.x)).sum

/-- `sumY2` accumulated by the `forEach` loop of `calculateLinearRegression`. -/
def sumY2 (points : List Point) : ℚ := (points.map (fun p => p.y * p.y)).sum

/-- `calculateLinearRegression` of the source, lines 62-97.
The source computes `denominatorR = Math.sqrt((n*sumX2 - sumX*sumX) * (n*sumY2 - sumY*sumY))`
and tests `denominatorR === 0`; the radicand is a product of two
nonnegative variance terms, so the test is equivalent to the radicand
being `0`, and `rSquared = (numeratorR / denominatorR)^2` equals
`numeratorR^2 / radicand` when it is nonzero.  In exact arithmetic the
final `isNaN(rSquared)` clamp never fires. -/
def calculateLinearRegression (points : List Point) : CalibrationResult :=
  if points.length < 2 then
    { slope := 1, rSquared := 0 }
  else
    if (points.length : ℚ) * sumX2 points - sumX points * sumX points = 0 then
      { slope := 1, rSquared := 0 }
    else
      if ((points.length : ℚ) * sumX2 points - sumX points * sumX points) *
          ((points.length : ℚ) * sumY2 points - sumY points * sumY points) = 0 then
        { slope := ((points.length : ℚ) * sumXY points - sumX points * sumY points) /
            ((points.length : ℚ) * sumX2 points - sumX points * sumX points),
          rSquared := 1 }
      else
        { slope := ((points.length : ℚ) * sumXY points - sumX points * sumY points) /
            ((points.length : ℚ) * sumX2 points - sumX points * sumX points),
          rSquared := ((points.length : ℚ) * sumXY points - sumX points * sumY points) ^ 2 /
            (((points.length : ℚ) * sumX2 points - sumX points * sumX points) *
              ((points.length : ℚ) * sumY2 points - sumY points * sumY points)) }

/-- The index-pairing `data.map((y, i) => ({ x: i, y }))` of
`calculateTrendlineSlope`: each element is paired with its position. -/
def indexPoints (data : List ℚ) : List Point :=
  List.zipWith (fun (i : ℕ) y => { x := (i : ℚ), y := y }) (List.range data.length) data

/-- `calculateTrendlineSlope` of the source, lines 104-109.  With exact
arithmetic the slope returned by `calculateLinearRegression` is never
NaN, so the `isNaN(slope)` guard is dropped. -/
def calculateTrendlineSlope (data : List ℚ) : ℚ :=
  if data.length < 2 then 0
  else (calculateLinearRegression (indexPoints data)).slope

/-- Derived processed value of a channel, exactly the expression
`(s.rawValue - s.tareValue) * s.calibrationSlope` of the aggregation
`useMemo` (source line 405). -/
def processedValue (s : Scale) : ℚ := (s.rawValue - s.tareValue) * s.calibrationSlope

/-- One step of the accumulation performed by the `switch` statement in
the aggregation `useMemo` (source lines 406-411): the pair is
`(totalX, totalY)` so far. -/
def aggregateStep (acc : ℚ × ℚ) (s : Scale) : ℚ × ℚ :=
  match s.category with
  | Category.x => (acc.1 + processedValue s, acc.2)
  | Category.negx => (acc.1 - processedValue s, acc.2)
  | Category.y => (acc.1, acc.2 + processedValue s)
  | Category.negy => (acc.1, acc.2 - processedValue s)
  | Category.none => acc

/-- `totalX` computed by the aggregation `useMemo` (source lines 401-415). -/
def totalX (scales : List Scale) : ℚ := (scales.foldl aggregateStep (0, 0)).1

/-- `totalY` computed by the aggregation `useMemo` (source lines 401-415). -/
def totalY (scales : List Scale) : ℚ := (scales.foldl aggregateStep (0, 0)).2

/-- The list of processed values produced by the aggregation `useMemo`
(the `processedValue` fields of `processedScales`). -/
def processedScales (scales : List Scale) : List ℚ := scales.map processedValue

/-- Sum of the processed values of the channels whose category is `c`;
reference quantity for stating what the aggregation computes. -/
def sumCat (c : Category) : List Scale → ℚ
  | [] => 0
  | s :: t => (if s.category = c then processedValue s else 0) + sumCat c t

/-- State of the log buffer: the `log` list and the `logBufferSize`
bound held in React state (source lines 286-287). -/
structure LogState where
  log : List LogEntry
  logBufferSize : ℕ
deriving DecidableEq, Repr

/-- Initial log state: `useState<LogEntry[]>([])` and `useState(100)`. -/
def initialLogState : LogState := { log := [], logBufferSize := 100 }

/-- One run of the log-append `useEffect` (source lines 417-433):
`updatedLog = [...log, newLogEntry]`, then if its length exceeds
`logBufferSize` a single `shift()` removes the front element. -/
def appendLog (st : LogState) (entry : LogEntry) : LogState :=
  { st with log :=
      if (st.log ++ [entry]).length > st.logBufferSize then (st.log ++ [entry]).tail
      else st.log ++ [entry] }

/-- The buffer-size input handler (source lines 604-610): it only stores
the new bound, the log list itself is untouched. -/
def setLogBufferSize (st : LogState) (c : ℕ) : LogState :=
  { st with logBufferSize := c }

/-- A sequence of append calls, oldest first. -/
def runAppends (st : LogState) (entries : List LogEntry) : LogState :=
  entries.foldl appendLog st

/-- Result record of the `stabilitySlopes` `useMemo`. -/
structure StabilityResult where
  scales : List ℚ
  totalX : ℚ
  totalY : ℚ
deriving DecidableEq, Repr

/-- `recentLog = log.slice(-20)` of the stability `useMemo` (source line
436): the trailing window of at most the 20 most recent entries. -/
def recentLog (log : List LogEntry) : List LogEntry := log.drop (log.length - 20)

/-- The `stabilitySlopes` `useMemo` (source lines 435-458).
`entry.processedValues[scaleIndex] ?? 0` is `List.getD` with default 0,
and `Array.from({length: 8}, (_, i) => ...)` is a map over `range 8`. -/
def stabilitySlopes (log : List LogEntry) : StabilityResult :=
  if (recentLog log).length < 2 then
    { scales := List.replicate 8 0, totalX := 0, totalY := 0 }
  else
    { scales := (List.range 8).map (fun scaleIndex =>
        calculateTrendlineSlope ((recentLog log).map
          (fun entry => entry.processedValues.getD scaleIndex 0)) * 100),
      totalX := calculateTrendlineSlope ((recentLog log).map (fun entry => entry.totalX)) * 100,
      totalY := calculateTrendlineSlope ((recentLog log).map (fun entry => entry.totalY)) * 100 }

/-- The tared pairs built inside the `regressionResult` `useMemo` of
`CalibrationModal` (source line 181): `x = knownWeight`,
`y = rawValue - tareValue`. -/
def taredPoints (points : List CalibrationPoint) (tareValue : ℚ) : List Point :=
  points.map (fun p => { x := p.knownWeight, y := p.rawValue - tareValue })

/-- The `regressionResult` `useMemo` of `CalibrationModal` (source lines
180-183). -/
def regressionResult (points : List CalibrationPoint) (scale : Scale) : CalibrationResult :=
  calculateLinearRegression (taredPoints points scale.tareValue)

/-- `handleApplyCalibration` of the source (lines 481-489): write the
new slope into the channel with the given id. -/
def handleApplyCalibration (scales : List Scale) (id : ℕ) (newSlope : ℚ) : List Scale :=
  scales.map (fun s => if s.id = id then { s with calibrationSlope := newSlope } else s)

/-- `handleApply` of `CalibrationModal` (source lines 194-199): commit
the computed slope only when it differs from 1, else leave the channel
store unchanged. -/
def handleApply (scales : List Scale) (scale : Scale) (points : List CalibrationPoint) :
    List Scale :=
  if (regressionResult points scale).slope ≠ 1 then
    handleApplyCalibration scales scale.id (regressionResult points scale).slope
  else scales

/-- The `disabled={points.length < 2}` condition of the Apply
Calibration button (source line 249). -/
def applyDisabled (points : List CalibrationPoint) : Bool :=
  decide (points.length < 2)

/-- `handleTareAll` of the source (lines 460-469): every channel's
`tareValue` becomes its current `rawValue`. -/
def handleTareAll (scales : List Scale) : List Scale :=
  scales.map (fun s => { s with tareValue := s.rawValue })

/-- `handleCategoryChange` of the source (lines 471-479). -/
def handleCategoryChange (scales : List Scale) (id : ℕ) (newCategory : Category) :
    List Scale :=
  scales.map (fun s => if s.id = id then { s with category := newCategory } else s)

/-- Helper for the indexed map of a raw update
(`prevScales.map((scale, index) => ({...scale, rawValue: values[index]}))`,
source lines 372-377); `i` is the index of the head of the remaining list. -/
def updateRawAux (values : List ℚ) : ℕ → List Scale → List Scale
  | _, [] => []
  | i, s :: rest => { s with rawValue := values.getD i 0 } :: updateRawAux values (i + 1) rest

/-- The raw update performed for an accepted streamed line (source lines
372-377): each channel's `rawValue` is replaced by the field at its
index, all other fields copied. -/
def updateRaw (scales : List Scale) (values : List ℚ) : List Scale :=
  updateRawAux values 0 scales

/-- Helper for the indexed map of a simulation tick; `deltas` holds the
random perturbation drawn for each channel. -/
def simTickAux (deltas : List ℚ) : ℕ → List Scale → List Scale
  | _, [] => []
  | i, s :: rest =>
      { s with rawValue := s.rawValue + deltas.getD i 0 } :: simTickAux deltas (i + 1) rest

/-- One simulation tick (source lines 316-323):
`rawValue := rawValue + (Math.random() - 0.5) * 0.1`, the random draw of
each channel given by `deltas`. -/
def simTick (scales : List Scale) (deltas : List ℚ) : List Scale :=
  simTickAux deltas 0 scales

/-- The default 8 channels (source lines 273-281). -/
def defaultScales : List Scale :=
  (List.range 8).map (fun i =>
    { id := i + 1, name := "Scale " ++ toString (i + 1), rawValue := 0, tareValue := 0,
      calibrationSlope := 1, category := Category.none })

/-- Splitting a character list at every occurrence of `sep`, the model of
JavaScript `String.prototype.split` (and of the `indexOf`-based line
loop): the result is never empty, and splitting text without the
separator yields the single whole segment. -/
def splitOnChar (sep : Char) : List Char → List (List Char)
  | [] => [[]]
  | c :: rest =>
    if c = sep then [] :: splitOnChar sep rest
    else
      match splitOnChar sep rest with
      | [] => [[c]]
      | l :: ls => (c :: l) :: ls

/-- JavaScript `String.prototype.trim`, modelled with Lean's whitespace
predicate (space, tab, carriage return, newline). -/
def trimChars (l : List Char) : List Char :=
  ((l.dropWhile Char.isWhitespace).reverse.dropWhile Char.isWhitespace).reverse

/-- The per-line check of `readFromPort` (source lines 370-378):
`line.split('\t').map(parseFloat)` must give exactly 8 values, all
numbers.  `parseFloat` is abstracted as `parse`; `none` models NaN.
Returns the 8 accepted values, or `none` when the line is discarded. -/
def parseLine (parse : List Char → Option ℚ) (line : List Char) : Option (List ℚ) :=
  if ((splitOnChar '\t' line).map parse).length = 8 ∧
      ((splitOnChar '\t' line).map parse).all Option.isSome then
    some (((splitOnChar '\t' line).map parse).map (fun v => v.getD 0))
  else none

/-- The complete lines and the residual (the text after the last
newline) of a buffer: `indexOf('\n')` loop of `readFromPort`. -/
def splitLines (buf : List Char) : List (List Char) × List Char :=
  ((splitOnChar '\n' buf).dropLast, (splitOnChar '\n' buf).getLastD [])

/-- One chunk arrival in `readFromPort` (source lines 361-380): the
chunk is appended to `lineBuffer`, every complete line is trimmed,
skipped when blank, and checked by `parseLine`; the residual after the
last newline becomes the new `lineBuffer`.  Returns the new buffer and
the accepted raw updates in order. -/
def processChunk (parse : List Char → Option ℚ) (lineBuffer chunk : List Char) :
    List Char × List (List ℚ) :=
  ((splitLines (lineBuffer ++ chunk)).2,
    (splitLines (lineBuffer ++ chunk)).1.filterMap (fun l =>
      if trimChars l = [] then none else parseLine parse (trimChars l)))

/-- Concrete log entry used in closed instances. -/
def sampleEntry : LogEntry := { totalX := 0, totalY := 0, processedValues := [] }

/-- Intermediate state of the end-to-end scenario: default channels fed
the raw tuple of eight 10s. -/
def scenarioState1 : List Scale := updateRaw defaultScales (List.replicate 8 10)

/-- Channel 1 set to category `x`, channel 2 to `-x`. -/
def scenarioState3 : List Scale :=
  handleCategoryChange (handleCategoryChange scenarioState1 1 Category.x) 2 Category.negx

/-- After taring (every channel's tare becomes its raw value, 10). -/
def scenarioState4 : List Scale := handleTareAll scenarioState3

/-- After feeding the raw tuple `[15, 10, 10, 10, 10, 10, 10, 10]`. -/
def scenarioState5 : List Scale :=
  updateRaw scenarioState4 (15 :: List.replicate 7 10)

/-! ### Lemmas about the Regression Engine -/

lemma sumX_cons (p : Point) (t : List Point) : sumX (p :: t) = p.x + sumX t := by
  simp [sumX]

lemma sumY_cons (p : Point) (t : List Point) : sumY (p :: t) = p.y + sumY t := by
  simp [sumY]

lemma sumXY_cons (p : Point) (t : List Point) : sumXY (p :: t) = p.x * p.y + sumXY t := by
  simp [sumXY]

lemma sumX2_cons (p : Point) (t : List Point) : sumX2 (p :: t) = p.x * p.x + sumX2 t := by
  simp [sumX2]

/-- Expansion of the sum of squared deviations from an arbitrary pivot. -/
lemma sum_dev_sq (m : ℚ) : ∀ xs : List ℚ,
    (xs.map (fun x => (x - m) * (x - m))).sum =
      (xs.map (fun x => x * x)).sum - 2 * m * xs.sum + (xs.length : ℚ) * (m * m)
  | [] => by simp
  | a :: t => by
    simp only [List.map_cons, List.sum_cons, List.length_cons, sum_dev_sq m t]
    push_cast
    ring

/-- If the list holds two distinct values, `n * Σ x² - (Σ x)²` is positive. -/
lemma variance_pos (xs : List ℚ) (a b : ℚ) (ha : a ∈ xs) (hb : b ∈ xs) (hab : a ≠ b) :
    0 < (xs.length : ℚ) * (xs.map (fun x => x * x)).sum - xs.sum * xs.sum := by
  have hne : xs ≠ [] := by rintro rfl; simp at ha
  have hn : 0 < (xs.length : ℚ) := by exact_mod_cast List.length_pos.mpr hne
  obtain ⟨c, hc, hcm⟩ : ∃ c ∈ xs, c ≠ xs.sum / (xs.length : ℚ) := by
    by_cases h : a = xs.sum / (xs.length : ℚ)
    · exact ⟨b, hb, fun hbm => hab (by rw [h, hbm])⟩
    · exact ⟨a, ha, h⟩
  have hterm : 0 < (c - xs.sum / (xs.length : ℚ)) * (c - xs.sum / (xs.length : ℚ)) :=
    mul_self_pos.mpr (sub_ne_zero.mpr hcm)
  have hposdev : 0 < (xs.map (fun x =>
      (x - xs.sum / (xs.length : ℚ)) * (x - xs.sum / (xs.length : ℚ)))).sum := by
    refine lt_of_lt_of_le hterm (List.single_le_sum (fun y hy => ?_) _
      (List.mem_map_of_mem _ hc))
    rcases List.mem_map.mp hy with ⟨x, _, rfl⟩
    exact mul_self_nonneg _
  have key : (xs.length : ℚ) * (xs.map (fun x =>
      (x - xs.sum / (xs.length : ℚ)) * (x - xs.sum / (xs.length : ℚ)))).sum =
      (xs.length : ℚ) * (xs.map (fun x => x * x)).sum - xs.sum * xs.sum := by
    rw [sum_dev_sq]
    field_simp
    ring
  have := mul_pos hn hposdev
  rwa [key] at this

lemma sum_all_eq (c : ℚ) : ∀ xs : List ℚ, (∀ x ∈ xs, x = c) →
    xs.sum = (xs.length : ℚ) * c
  | [] => by simp
  | a :: t => by
    intro h
    have ha := h a (List.mem_cons_self _ _)
    have ht := sum_all_eq c t (fun x hx => h x (List.mem_cons_of_mem _ hx))
    simp only [List.sum_cons, List.length_cons, ht, ha]
    push_cast
    ring

lemma sum_sq_all_eq (c : ℚ) : ∀ xs : List ℚ, (∀ x ∈ xs, x = c) →
    (xs.map (fun x => x * x)).sum = (xs.length : ℚ) * (c * c)
  | [] => by simp
  | a :: t => by
    intro h
    have ha := h a (List.mem_cons_self _ _)
    have ht := sum_sq_all_eq c t (fun x hx => h x (List.mem_cons_of_mem _ hx))
    simp only [List.map_cons, List.sum_cons, List.length_cons, ht, ha]
    push_cast
    ring

/-- If every value in the list equals `c`, then `n * Σ x² - (Σ x)²` is zero. -/
lemma variance_zero (xs : List ℚ) (c : ℚ) (h : ∀ x ∈ xs, x = c) :
    (xs.length : ℚ) * (xs.map (fun x => x * x)).sum - xs.sum * xs.sum = 0 := by
  rw [sum_all_eq c xs h, sum_sq_all_eq c xs h]
  ring

lemma xs_sq_eq (points : List Point) :
    ((points.map (fun p => p.x)).map (fun x => x * x)).sum = sumX2 points := by
  rw [List.map_map]
  rfl

/-- The slope denominator `n * sumX2 - sumX * sumX` is positive whenever two
points have distinct x-values. -/
lemma slope_denominator_pos (points : List Point)
    (hx : ∃ p ∈ points, ∃ q ∈ points, p.x ≠ q.x) :
    0 < (points.length : ℚ) * sumX2 points - sumX points * sumX points := by
  obtain ⟨p, hp, q, hq, hpq⟩ := hx
  have h := variance_pos (points.map (fun r => r.x)) p.x q.x
    (List.mem_map_of_mem _ hp) (List.mem_map_of_mem _ hq) hpq
  rw [List.length_map, xs_sq_eq] at h
  exact h

/-- The slope denominator vanishes when all x-values agree. -/
lemma slope_denominator_zero (points : List Point)
    (h : ∀ p ∈ points, ∀ q ∈ points, p.x = q.x) :
    (points.length : ℚ) * sumX2 points - sumX points * sumX points = 0 := by
  cases points with
  | nil => simp [sumX2, sumX]
  | cons p t =>
    have hz := variance_zero ((p :: t).map (fun r => r.x)) p.x ?_
    · rw [List.length_map, xs_sq_eq] at hz
      exact hz
    · intro x hx
      rcases List.mem_map.mp hx with ⟨r, hr, rfl⟩
      exact h r hr p (List.mem_cons_self _ _)

/-- In the branch with at least two points and nonzero denominator, the
returned slope is the closed-form quotient (whatever the `rSquared`
branch does). -/
lemma calculateLinearRegression_slope (points : List Point) (h2 : 2 ≤ points.length)
    (hden : (points.length : ℚ) * sumX2 points - sumX points * sumX points ≠ 0) :
    (calculateLinearRegression points).slope =
      ((points.length : ℚ) * sumXY points - sumX points * sumY points) /
        ((points.length : ℚ) * sumX2 points - sumX points * sumX points) := by
  unfold calculateLinearRegression
  rw [if_neg (by omega), if_neg hden]
  split <;> rfl

/-- Sums of an affine data set `y = a + d * x`. -/
lemma sums_affine (a d : ℚ) : ∀ points : List Point,
    (∀ p ∈ points, p.y = a + d * p.x) →
    sumY points = (points.length : ℚ) * a + d * sumX points ∧
      sumXY points = a * sumX points + d * sumX2 points
  | [] => by intro _; simp [sumY, sumX, sumXY, sumX2]
  | p :: t => by
    intro h
    obtain ⟨h1, h2⟩ := sums_affine a d t (fun q hq => h q (List.mem_cons_of_mem _ hq))
    have hp := h p (List.mem_cons_self _ _)
    constructor
    · rw [sumY_cons, sumX_cons, hp, h1, List.length_cons]
      push_cast
      ring
    · rw [sumXY_cons, sumX_cons, sumX2_cons, hp, h2]
      ring

/-- The regression slope of affinely generated points with nonconstant x
is exactly the generating slope. -/
lemma slope_affine (points : List Point) (a d : ℚ)
    (hy : ∀ p ∈ points, p.y = a + d * p.x) (h2 : 2 ≤ points.length)
    (hx : ∃ p ∈ points, ∃ q ∈ points, p.x ≠ q.x) :
    (calculateLinearRegression points).slope = d := by
  have hpos := slope_denominator_pos points hx
  obtain ⟨h1, h2'⟩ := sums_affine a d points hy
  rw [calculateLinearRegression_slope points h2 (ne_of_gt hpos), h1, h2',
    div_eq_iff (ne_of_gt hpos)]
  ring

lemma indexPoints_range_map (k : ℕ) (f : ℕ → ℚ) :
    indexPoints ((List.range k).map f) =
      (List.range k).map (fun i => { x := (i : ℚ), y := f i }) := by
  unfold indexPoints
  rw [List.length_map, List.length_range, List.zipWith_map_right, List.zipWith_same]

/-- The trendline slope of an arithmetic progression with common
difference `d` and at least two samples is `d`. -/
lemma calculateTrendlineSlope_arith (c d : ℚ) (k : ℕ) (hk : 2 ≤ k) :
    calculateTrendlineSlope ((List.range k).map (fun (i : ℕ) => c + d * (i : ℚ))) = d := by
  unfold calculateTrendlineSlope
  rw [if_neg (by simp only [List.length_map, List.length_range]; omega),
    indexPoints_range_map]
  apply slope_affine _ c d
  · intro p hp
    rcases List.mem_map.mp hp with ⟨i, _, rfl⟩
    rfl
  · simpa using hk
  · refine ⟨{ x := ((0 : ℕ) : ℚ), y := c + d * ((0 : ℕ) : ℚ) },
      List.mem_map_of_mem _ (List.mem_range.mpr (by omega)),
      { x := ((1 : ℕ) : ℚ), y := c + d * ((1 : ℕ) : ℚ) },
      List.mem_map_of_mem _ (List.mem_range.mpr (by omega)), ?_⟩
    norm_num

/-! ### Lemmas about the Aggregator -/

/-- Characterization of the accumulation loop of the aggregation
`useMemo`: the totals are the signed sums of processed values by
category. -/
lemma foldl_aggregateStep : ∀ (scales : List Scale) (acc : ℚ × ℚ),
    scales.foldl aggregateStep acc =
      (acc.1 + (sumCat Category.x scales - sumCat Category.negx scales),
        acc.2 + (sumCat Category.y scales - sumCat Category.negy scales))
  | [] => by intro acc; simp [sumCat]
  | s :: t => by
    intro acc
    rw [List.foldl_cons, foldl_aggregateStep t]
    cases hcat : s.category <;>
      simp only [aggregateStep, hcat, sumCat, Prod.mk.injEq, reduceCtorEq, if_true,
        if_false, ite_true, ite_false, reduceIte] <;>
      constructor <;> ring

lemma totalX_eq_sumCat (scales : List Scale) :
    totalX scales = sumCat Category.x scales - sumCat Category.negx scales := by
  unfold totalX
  rw [foldl_aggregateStep]
  simp

lemma totalY_eq_sumCat (scales : List Scale) :
    totalY scales = sumCat Category.y scales - sumCat Category.negy scales := by
  unfold totalY
  rw [foldl_aggregateStep]
  simp

lemma sumCat_nil (c : Category) : sumCat c [] = 0 := rfl

lemma sumCat_cons (c : Category) (s : Scale) (t : List Scale) :
    sumCat c (s :: t) = (if s.category = c then processedValue s else 0) + sumCat c t := rfl

lemma sumCat_append (c : Category) : ∀ l1 l2 : List Scale,
    sumCat c (l1 ++ l2) = sumCat c l1 + sumCat c l2
  | [], l2 => by rw [List.nil_append, sumCat_nil]; ring
  | s :: t, l2 => by
    rw [List.cons_append, sumCat_cons, sumCat_cons, sumCat_append c t l2]
    ring

/-! ### Lemmas about the Log Buffer -/

/-- Closed form of a run of appends from a state within its bound: the
buffer keeps the most recent entries, dropping from the front. -/
lemma runAppends_log (C : ℕ) (hC : 1 ≤ C) : ∀ (entries : List LogEntry) (st : LogState),
    st.logBufferSize = C → st.log.length ≤ C →
    (runAppends st entries).log =
      (st.log ++ entries).drop (st.log.length + entries.length - C)
  | [] => by
    intro st hbuf hlen
    simp only [runAppends, List.foldl_nil, List.append_nil, List.length_nil, Nat.add_zero]
    rw [Nat.sub_eq_zero_of_le hlen, List.drop_zero]
  | e :: t => by
    intro st hbuf hlen
    have hstep : runAppends st (e :: t) = runAppends (appendLog st e) t := rfl
    rw [hstep]
    by_cases hover : st.log.length + 1 > C
    · have hlenC : st.log.length = C := by omega
      cases hlog : st.log with
      | nil => exfalso; rw [hlog] at hlenC; simp at hlenC; omega
      | cons a l =>
        have hl : l.length + 1 = C := by rw [hlog] at hlenC; simpa using hlenC
        have happ : appendLog st e = { log := l ++ [e], logBufferSize := C } := by
          unfold appendLog
          rw [if_pos (by simp [hbuf]; omega), hlog]
          simp [hbuf]
        rw [runAppends_log C hC t (appendLog st e) (by rw [happ])
          (by rw [happ]; simp; omega)]
        rw [happ]
        show ((l ++ [e]) ++ t).drop ((l ++ [e]).length + t.length - C) =
          ((a :: l) ++ e :: t).drop ((a :: l).length + (e :: t).length - C)
        rw [show (l ++ [e]).length + t.length - C = t.length from by simp; omega]
        rw [show (a :: l).length + (e :: t).length - C = t.length + 1 from by simp; omega]
        rw [List.append_assoc, List.singleton_append, List.cons_append,
          List.drop_succ_cons]
    · have happ : appendLog st e = { log := st.log ++ [e], logBufferSize := C } := by
        unfold appendLog
        rw [if_neg (by simp [hbuf]; omega)]
        simp [hbuf]
      rw [runAppends_log C hC t (appendLog st e) (by rw [happ])
        (by rw [happ]; simp; omega)]
      rw [happ]
      show ((st.log ++ [e]) ++ t).drop ((st.log ++ [e]).length + t.length - C) =
        (st.log ++ e :: t).drop (st.log.length + (e :: t).length - C)
      rw [show (st.log ++ [e]).length + t.length - C =
        st.log.length + (e :: t).length - C from by simp; omega]
      rw [List.append_assoc, List.singleton_append]

/-! ### Lemmas about the streamed decoder -/

lemma splitOnChar_ne_nil (sep : Char) : ∀ l : List Char, splitOnChar sep l ≠ []
  | [] => by simp [splitOnChar]
  | c :: rest => by
    unfold splitOnChar
    split
    · simp
    · cases h : splitOnChar sep rest <;> simp

/-- Text without the separator splits into the single whole segment. -/
lemma splitOnChar_of_not_mem (sep : Char) : ∀ l : List Char, sep ∉ l →
    splitOnChar sep l = [l]
  | [] => by intro _; rfl
  | c :: rest => by
    intro h
    unfold splitOnChar
    rw [if_neg (fun hc : c = sep => h (hc ▸ List.mem_cons_self _ _))]
    rw [splitOnChar_of_not_mem sep rest (fun hr => h (List.mem_cons_of_mem _ hr))]

/-- Acceptance criterion of a complete line: exactly 8 tab-separated
fields, all parsing as numbers. -/
lemma parseLine_isSome_iff (parse : List Char → Option ℚ) (line : List Char) :
    (parseLine parse line).isSome = true ↔
      ((splitOnChar '\t' line).length = 8 ∧
        ∀ f ∈ splitOnChar '\t' line, (parse f).isSome = true) := by
  unfold parseLine
  split
  · rename_i h
    obtain ⟨h1, h2⟩ := h
    simp only [Option.isSome_some, true_iff]
    refine ⟨by simpa using h1, fun f hf => ?_⟩
    exact List.all_eq_true.mp h2 (parse f) (List.mem_map_of_mem _ hf)
  · rename_i h
    simp only [Option.isSome_none, Bool.false_eq_true, false_iff]
    rintro ⟨h1, h2⟩
    apply h
    refine ⟨by simpa using h1, List.all_eq_true.mpr fun v hv => ?_⟩
    rcases List.mem_map.mp hv with ⟨f, hf, rfl⟩
    exact h2 f hf

/-! ### Lemmas about raw updates -/

/-- A raw update leaves every field other than `rawValue` unchanged. -/
lemma updateRawAux_map_eq {α : Type} (values : List ℚ) (g : Scale → α)
    (hg : ∀ (s : Scale) (v : ℚ), g { s with rawValue := v } = g s) :
    ∀ (scales : List Scale) (i : ℕ), (updateRawAux values i scales).map g = scales.map g
  | [], _ => rfl
  | s :: rest, i => by
    simp only [updateRawAux, List.map_cons, hg, updateRawAux_map_eq values g hg rest (i + 1)]

/-- The raw values after an update are exactly the corresponding slice of
the incoming tuple. -/
lemma updateRawAux_map_rawValue (values : List ℚ) :
    ∀ (scales : List Scale) (i : ℕ), i + scales.length ≤ values.length →
      (updateRawAux values i scales).map (fun s => s.rawValue) =
        (values.drop i).take scales.length
  | [], i => by intro _; simp [updateRawAux]
  | s :: rest, i => by
    intro h
    have hi : i < values.length := by simp at h; omega
    simp only [updateRawAux, List.map_cons,
      updateRawAux_map_rawValue values rest (i + 1) (by simp at h ⊢; omega)]
    rw [List.getD_eq_getElem values 0 hi, List.drop_eq_getElem_cons hi]
    rfl

lemma simTickAux_map_eq {α : Type} (deltas : List ℚ) (g : Scale → α)
    (hg : ∀ (s : Scale) (v : ℚ), g { s with rawValue := v } = g s) :
    ∀ (scales : List Scale) (i : ℕ), (simTickAux deltas i scales).map g = scales.map g
  | [], _ => rfl
  | s :: rest, i => by
    simp only [simTickAux, List.map_cons, hg, simTickAux_map_eq deltas g hg rest (i + 1)]

lemma updateRawAux_length (values : List ℚ) :
    ∀ (scales : List Scale) (i : ℕ), (updateRawAux values i scales).length = scales.length
  | [], _ => rfl
  | s :: rest, i => by
    simp only [updateRawAux, List.length_cons, updateRawAux_length values rest (i + 1)]

lemma simTickAux_length (deltas : List ℚ) :
    ∀ (scales : List Scale) (i : ℕ), (simTickAux deltas i scales).length = scales.length
  | [], _ => rfl
  | s :: rest, i => by
    simp only [simTickAux, List.length_cons, simTickAux_length deltas rest (i + 1)]

lemma getD_range_map (f : ℕ → ℚ) (j : ℕ) (hj : j < 8) :
    ((List.range 8).map f).getD j 0 = f j := by
  rw [List.getD_eq_getElem _ _ (by simpa using hj)]
  simp

/-- Concrete data set `(0,0), (1,2), (2,4)` of the spec's first testable
property. -/
def olsPoints : List Point :=
  [{ x := 0, y := 0 }, { x := 1, y := 2 }, { x := 2, y := 4 }]

/-- A log-buffer state reachable from the initial state: capacity set to
2, two entries appended, then capacity lowered to 1. -/
def overfullState : LogState :=
  setLogBufferSize (runAppends (setLogBufferSize initialLogState 2)
    [sampleEntry, sampleEntry]) 1

/-! ### Claim theorems -/

/-- C1: for every ordered collection of at least 2 points whose x-values
are not all equal, `calculateLinearRegression` returns the closed-form
ordinary-least-squares slope `(n*Sxy - Sx*Sy) / (n*Sxx - Sx^2)`; in
particular `(0,0), (1,2), (2,4)` yield slope 2 and rSquared 1. -/
theorem C1_regression_slope_ols (points : List Point) (h2 : 2 ≤ points.length)
    (hx : ∃ p ∈ points, ∃ q ∈ points, p.x ≠ q.x) :
    (calculateLinearRegression points).slope =
      ((points.length : ℚ) * sumXY points - sumX points * sumY points) /
        ((points.length : ℚ) * sumX2 points - sumX points * sumX points) ∧
    calculateLinearRegression olsPoints = { slope := 2, rSquared := 1 } := by
  refine ⟨calculateLinearRegression_slope points h2
    (ne_of_gt (slope_denominator_pos points hx)), ?_⟩
  norm_num [calculateLinearRegression, olsPoints, sumX, sumY, sumXY, sumX2, sumY2]

/-- Witness for C1 at the concrete point set `(0,0), (1,2), (2,4)`. -/
theorem C1_regression_slope_ols_witness :
    (calculateLinearRegression olsPoints).slope =
      ((olsPoints.length : ℚ) * sumXY olsPoints - sumX olsPoints * sumY olsPoints) /
        ((olsPoints.length : ℚ) * sumX2 olsPoints - sumX olsPoints * sumX olsPoints) :=
  (C1_regression_slope_ols olsPoints (by decide)
    ⟨{ x := 0, y := 0 }, by decide, { x := 1, y := 2 }, by decide, by decide⟩).1

/-- C2: with fewer than 2 points, or with 2 or more points all sharing
the same x (zero slope denominator), `calculateLinearRegression` returns
`(slope = 1, rSquared = 0)`; being a total Lean function it is defined
for every input, so no error is raised on degenerate inputs. -/
theorem C2_degenerate_inputs (points : List Point) :
    (points.length < 2 →
      calculateLinearRegression points = { slope := 1, rSquared := 0 }) ∧
    (2 ≤ points.length → (∀ p ∈ points, ∀ q ∈ points, p.x = q.x) →
      calculateLinearRegression points = { slope := 1, rSquared := 0 }) := by
  constructor
  · intro h
    unfold calculateLinearRegression
    rw [if_pos h]
  · intro h2 hall
    unfold calculateLinearRegression
    rw [if_neg (by omega), if_pos (slope_denominator_zero points hall)]

/-- Witness for C2 at a singleton and at the constant-x pair `(5,1), (5,3)`. -/
theorem C2_degenerate_inputs_witness :
    calculateLinearRegression [{ x := 5, y := 1 }] = { slope := 1, rSquared := 0 } ∧
    calculateLinearRegression [{ x := 5, y := 1 }, { x := 5, y := 3 }] =
      { slope := 1, rSquared := 0 } :=
  ⟨(C2_degenerate_inputs _).1 (by decide),
    (C2_degenerate_inputs _).2 (by decide) (by decide)⟩

/-- C3: each channel's processed value is `(raw - tare) * slope`,
`totalX` is the sum of processed values over category `x` minus the sum
over `-x`, `totalY` analogously, and a channel with category `none`
contributes zero to both totals regardless of its processed value. -/
theorem C3_aggregator (scales : List Scale) (h8 : scales.length = 8) :
    processedScales scales =
      scales.map (fun s => (s.rawValue - s.tareValue) * s.calibrationSlope) ∧
    totalX scales = sumCat Category.x scales - sumCat Category.negx scales ∧
    totalY scales = sumCat Category.y scales - sumCat Category.negy scales ∧
    (∀ pre s post, scales = pre ++ s :: post → s.category = Category.none →
      totalX scales = totalX (pre ++ post) ∧ totalY scales = totalY (pre ++ post)) := by
  refine ⟨rfl, totalX_eq_sumCat scales, totalY_eq_sumCat scales, ?_⟩
  rintro pre s post rfl hnone
  constructor
  · rw [totalX_eq_sumCat, totalX_eq_sumCat, sumCat_append, sumCat_append,
      sumCat_append, sumCat_append, sumCat_cons, sumCat_cons, hnone]
    simp only [reduceCtorEq, ite_false, if_false]
    ring
  · rw [totalY_eq_sumCat, totalY_eq_sumCat, sumCat_append, sumCat_append,
      sumCat_append, sumCat_append, sumCat_cons, sumCat_cons, hnone]
    simp only [reduceCtorEq, ite_false, if_false]
    ring

/-- Witness for C3 at the default 8 channels. -/
theorem C3_aggregator_witness :
    totalX defaultScales = sumCat Category.x defaultScales - sumCat Category.negx defaultScales :=
  (C3_aggregator defaultScales (by decide)).2.1

/-- C4: starting from an empty buffer with fixed capacity `C ≥ 1`, after
any sequence of appends the buffer holds exactly the most recent
`min(callCount, C)` entries in original append order (strict FIFO
eviction of the oldest). -/
theorem C4_fifo_buffer (C : ℕ) (hC : 1 ≤ C) (entries : List LogEntry) :
    (runAppends { log := [], logBufferSize := C } entries).log =
      entries.drop (entries.length - C) ∧
    (runAppends { log := [], logBufferSize := C } entries).log.length =
      min entries.length C := by
  have h := runAppends_log C hC entries { log := [], logBufferSize := C } rfl (by simp)
  simp only [List.nil_append, List.length_nil, Nat.zero_add] at h
  refine ⟨h, ?_⟩
  rw [h, List.length_drop]
  omega

/-- Three concrete log entries used by the C4 witness. -/
def threeEntries : List LogEntry :=
  [{ totalX := 1, totalY := 0, processedValues := [] },
    { totalX := 2, totalY := 0, processedValues := [] },
    { totalX := 3, totalY := 0, processedValues := [] }]

/-- Witness for C4: capacity 2, three appends keep the last two entries. -/
theorem C4_fifo_buffer_witness :
    (runAppends { log := [], logBufferSize := 2 } threeEntries).log =
      threeEntries.drop (threeEntries.length - 2) :=
  (C4_fifo_buffer 2 (by decide) threeEntries).1

/-- C5 counterexample: a state reachable from the initial state (set
capacity 2, append twice, set capacity 1) has `length > capacity`, and
a further append still leaves `length > capacity`, refuting both the
immediate trim on `setCapacity` and the trim-until-equal on append. -/
theorem C5_counterexample :
    overfullState.logBufferSize < overfullState.log.length ∧
    (appendLog overfullState sampleEntry).logBufferSize <
      (appendLog overfullState sampleEntry).log.length := by
  decide

/-- C5 amended: an append whose result exceeds capacity removes exactly
one entry (the oldest) from the front, which preserves `length ≤
capacity` when it already held but does not re-establish it; changing
the buffer size never trims the log. -/
theorem C5_amended_invariant (st : LogState) (e : LogEntry) (C : ℕ) :
    (st.log.length ≤ st.logBufferSize →
      (appendLog st e).log.length ≤ (appendLog st e).logBufferSize) ∧
    (st.logBufferSize < (st.log ++ [e]).length →
      (appendLog st e).log = (st.log ++ [e]).tail) ∧
    ((st.log ++ [e]).length ≤ st.logBufferSize →
      (appendLog st e).log = st.log ++ [e]) ∧
    (setLogBufferSize st C).log = st.log := by
  refine ⟨?_, ?_, ?_, rfl⟩
  · intro h
    show (if (st.log ++ [e]).length > st.logBufferSize then (st.log ++ [e]).tail
      else st.log ++ [e]).length ≤ st.logBufferSize
    split
    · rename_i hc
      simp only [List.length_tail, List.length_append, List.length_cons,
        List.length_nil] at *
      omega
    · rename_i hc
      simp only [List.length_append, List.length_cons, List.length_nil] at *
      omega
  · intro h
    show (if (st.log ++ [e]).length > st.logBufferSize then (st.log ++ [e]).tail
      else st.log ++ [e]) = (st.log ++ [e]).tail
    rw [if_pos h]
  · intro h
    show (if (st.log ++ [e]).length > st.logBufferSize then (st.log ++ [e]).tail
      else st.log ++ [e]) = st.log ++ [e]
    rw [if_neg (not_lt.mpr h)]

/-- Witness for C5 amended at concrete one-entry states. -/
theorem C5_amended_invariant_witness :
    ((appendLog { log := [sampleEntry], logBufferSize := 1 } sampleEntry).log.length ≤
      (appendLog { log := [sampleEntry], logBufferSize := 1 } sampleEntry).logBufferSize) ∧
    (appendLog { log := [sampleEntry], logBufferSize := 1 } sampleEntry).log =
      ([sampleEntry] ++ [sampleEntry]).tail ∧
    (appendLog { log := [], logBufferSize := 1 } sampleEntry).log = [] ++ [sampleEntry] ∧
    (setLogBufferSize { log := [sampleEntry], logBufferSize := 1 } 5).log = [sampleEntry] :=
  ⟨(C5_amended_invariant { log := [sampleEntry], logBufferSize := 1 } sampleEntry 5).1
      (by decide),
    (C5_amended_invariant { log := [sampleEntry], logBufferSize := 1 } sampleEntry 5).2.1
      (by decide),
    (C5_amended_invariant { log := [], logBufferSize := 1 } sampleEntry 5).2.2.1
      (by decide),
    (C5_amended_invariant { log := [sampleEntry], logBufferSize := 1 } sampleEntry 5).2.2.2⟩

/-- C6: the Stability Estimator works on the trailing window of at most
the 20 most recent entries; with fewer than 2 entries every slope is 0;
otherwise each slope is the regression slope over `(tickIndex, value)`
pairs times 100, and on an arithmetic window with common difference `d`
of `k ≥ 2` samples the returned slope is `100 * d`. -/
theorem C6_stability_estimator (log : List LogEntry) (c d : ℚ) (k : ℕ) :
    ((recentLog log).length < 2 →
      stabilitySlopes log = { scales := List.replicate 8 0, totalX := 0, totalY := 0 }) ∧
    (2 ≤ (recentLog log).length →
      (stabilitySlopes log).totalX =
        calculateTrendlineSlope ((recentLog log).map (fun e => e.totalX)) * 100 ∧
      (stabilitySlopes log).totalY =
        calculateTrendlineSlope ((recentLog log).map (fun e => e.totalY)) * 100 ∧
      ∀ j : ℕ, j < 8 → (stabilitySlopes log).scales.getD j 0 =
        calculateTrendlineSlope ((recentLog log).map
          (fun e => e.processedValues.getD j 0)) * 100) ∧
    (0 < d → 2 ≤ k → k ≤ 20 →
      log.map (fun e => e.totalX) = (List.range k).map (fun (i : ℕ) => c + d * (i : ℚ)) →
      (stabilitySlopes log).totalX = 100 * d) := by
  refine ⟨?_, ?_, ?_⟩
  · intro h
    unfold stabilitySlopes
    rw [if_pos h]
  · intro h
    unfold stabilitySlopes
    rw [if_neg (by omega)]
    exact ⟨rfl, rfl, fun j hj => getD_range_map (fun scaleIndex =>
      calculateTrendlineSlope ((recentLog log).map
        (fun entry => entry.processedValues.getD scaleIndex 0)) * 100) j hj⟩
  · intro hd hk2 hk20 hmap
    have hlen : log.length = k := by
      have := congrArg List.length hmap
      simpa using this
    have hrec : recentLog log = log := by
      unfold recentLog
      rw [hlen, Nat.sub_eq_zero_of_le hk20, List.drop_zero]
    unfold stabilitySlopes
    rw [if_neg (by rw [hrec, hlen]; omega)]
    show calculateTrendlineSlope ((recentLog log).map (fun e => e.totalX)) * 100 = 100 * d
    rw [hrec, hmap, calculateTrendlineSlope_arith c d k hk2]
    ring

/-- Witness for C6: two entries with totals 3 and 5 (difference 2) give
stability slope 200. -/
theorem C6_stability_estimator_witness :
    (stabilitySlopes [{ totalX := 3, totalY := 0, processedValues := [] },
      { totalX := 5, totalY := 0, processedValues := [] }]).totalX = 100 * 2 :=
  (C6_stability_estimator [{ totalX := 3, totalY := 0, processedValues := [] },
    { totalX := 5, totalY := 0, processedValues := [] }] 3 2 2).2.2
    (by norm_num) (by decide) (by decide) (by norm_num [List.range_succ])

/-- C7: the Apply Calibration button is disabled exactly below 2 points;
commit writes `calibrationSlope := slope` exactly when the regression
slope over the tared pairs differs from 1 and is otherwise a no-op; with
`tareValue = 0` and points `(100, 100), (200, 200)` the regression is
`(slope 1, rSquared 1)` and commit leaves the channel store unchanged. -/
theorem C7_calibration_commit (scales : List Scale) (scale : Scale)
    (points : List CalibrationPoint) :
    (applyDisabled points = true ↔ points.length < 2) ∧
    ((regressionResult points scale).slope ≠ 1 →
      handleApply scales scale points =
        handleApplyCalibration scales scale.id (regressionResult points scale).slope) ∧
    ((regressionResult points scale).slope = 1 →
      handleApply scales scale points = scales) ∧
    (scale.tareValue = 0 →
      regressionResult [{ knownWeight := 100, rawValue := 100 },
        { knownWeight := 200, rawValue := 200 }] scale = { slope := 1, rSquared := 1 } ∧
      handleApply scales scale [{ knownWeight := 100, rawValue := 100 },
        { knownWeight := 200, rawValue := 200 }] = scales) := by
  refine ⟨by simp [applyDisabled], ?_, ?_, ?_⟩
  · intro h
    unfold handleApply
    rw [if_pos h]
  · intro h
    unfold handleApply
    rw [if_neg (by simp [h])]
  · intro h0
    have hreg : regressionResult [{ knownWeight := 100, rawValue := 100 },
        { knownWeight := 200, rawValue := 200 }] scale = { slope := 1, rSquared := 1 } := by
      unfold regressionResult taredPoints
      rw [h0]
      norm_num [calculateLinearRegression, sumX, sumY, sumXY, sumX2, sumY2]
    refine ⟨hreg, ?_⟩
    unfold handleApply
    rw [hreg]
    simp

/-- The first default channel, used as the concrete calibration target. -/
def firstScale : Scale :=
  { id := 1, name := "Scale 1", rawValue := 0, tareValue := 0,
    calibrationSlope := 1, category := Category.none }

/-- Witness for C7 at the first default channel (tare 0). -/
theorem C7_calibration_commit_witness :
    handleApply defaultScales firstScale
      [{ knownWeight := 100, rawValue := 100 }, { knownWeight := 200, rawValue := 200 }] =
      defaultScales :=
  ((C7_calibration_commit defaultScales firstScale
    [{ knownWeight := 100, rawValue := 100 },
      { knownWeight := 200, rawValue := 200 }]).2.2.2 rfl).2

/-- C8: a complete line becomes a raw update exactly when tab-splitting
yields 8 fields that all parse; rejected lines leave no trace (the new
residual buffer does not depend on the parser at all); a chunk without a
newline is carried whole into the residual buffer, and splitting a
stream across chunk boundaries at any place does not change the decoder
state. -/
theorem C8_stream_decoding (parse : List Char → Option ℚ)
    (lineBuffer chunk c1 c2 line : List Char) :
    ((parseLine parse line).isSome = true ↔
      ((splitOnChar '\t' line).length = 8 ∧
        ∀ f ∈ splitOnChar '\t' line, (parse f).isSome = true)) ∧
    (∀ parse2 : List Char → Option ℚ,
      (processChunk parse lineBuffer chunk).1 = (processChunk parse2 lineBuffer chunk).1) ∧
    ('\n' ∉ lineBuffer ++ chunk →
      processChunk parse lineBuffer chunk = (lineBuffer ++ chunk, [])) ∧
    processChunk parse lineBuffer (c1 ++ c2) = processChunk parse (lineBuffer ++ c1) c2 := by
  refine ⟨parseLine_isSome_iff parse line, fun parse2 => rfl, ?_, ?_⟩
  · intro h
    unfold processChunk splitLines
    rw [splitOnChar_of_not_mem _ _ h]
    simp
  · unfold processChunk
    rw [List.append_assoc]

/-- Witness for C8: a newline-free chunk is carried into the buffer. -/
theorem C8_stream_decoding_witness :
    processChunk (fun _ => some 0) [Char.ofNat 97] [Char.ofNat 98] =
      ([Char.ofNat 97] ++ [Char.ofNat 98], []) :=
  (C8_stream_decoding (fun _ => some 0) [Char.ofNat 97] [Char.ofNat 98] [] [] []).2.2.1
    (by decide)

/-- C9: end-to-end scenario — from default channels, feed eight 10s, set
channel 1 to `x` and channel 2 to `-x`: totals are 0; tare (channel 1's
tare becomes 10), feed `[15, 10, ...]`: `totalX = 5`. -/
theorem C9_end_to_end :
    totalX scenarioState3 = 0 ∧ totalY scenarioState3 = 0 ∧
    scenarioState4.map (fun s => s.tareValue) = List.replicate 8 10 ∧
    totalX scenarioState5 = 5 := by
  refine ⟨?_, ?_, ?_, ?_⟩ <;> with_unfolding_all rfl

/-- C10: a raw update — simulated tick or accepted streamed line — is a
single whole-list state update that changes only `rawValue`: name, tare,
calibration slope and category of every channel are unchanged, and with
8 channels and 8 values every `rawValue` is replaced by the incoming
tuple. -/
theorem C10_raw_update_isolation (scales : List Scale) (values deltas : List ℚ) :
    ((updateRaw scales values).map (fun s => s.name) = scales.map (fun s => s.name) ∧
      (updateRaw scales values).map (fun s => s.tareValue) =
        scales.map (fun s => s.tareValue) ∧
      (updateRaw scales values).map (fun s => s.calibrationSlope) =
        scales.map (fun s => s.calibrationSlope) ∧
      (updateRaw scales values).map (fun s => s.category) =
        scales.map (fun s => s.category) ∧
      (scales.length = 8 → values.length = 8 →
        (updateRaw scales values).map (fun s => s.rawValue) = values)) ∧
    ((simTick scales deltas).map (fun s => s.name) = scales.map (fun s => s.name) ∧
      (simTick scales deltas).map (fun s => s.tareValue) =
        scales.map (fun s => s.tareValue) ∧
      (simTick scales deltas).map (fun s => s.calibrationSlope) =
        scales.map (fun s => s.calibrationSlope) ∧
      (simTick scales deltas).map (fun s => s.category) =
        scales.map (fun s => s.category)) := by
  refine ⟨⟨updateRawAux_map_eq values (fun s => s.name) (fun s v => rfl) scales 0,
    updateRawAux_map_eq values (fun s => s.tareValue) (fun s v => rfl) scales 0,
    updateRawAux_map_eq values (fun s => s.calibrationSlope) (fun s v => rfl) scales 0,
    updateRawAux_map_eq values (fun s => s.category) (fun s v => rfl) scales 0, ?_⟩,
    simTickAux_map_eq deltas (fun s => s.name) (fun s v => rfl) scales 0,
    simTickAux_map_eq deltas (fun s => s.tareValue) (fun s v => rfl) scales 0,
    simTickAux_map_eq deltas (fun s => s.calibrationSlope) (fun s v => rfl) scales 0,
    simTickAux_map_eq deltas (fun s => s.category) (fun s v => rfl) scales 0⟩
  intro h8 hv8
  have h := updateRawAux_map_rawValue values scales 0 (by omega)
  rw [updateRaw, h, List.drop_zero, h8, ← hv8, List.take_length]

/-- Witness for C10: the scenario update replaces all eight raw values. -/
theorem C10_raw_update_isolation_witness :
    (updateRaw defaultScales (List.replicate 8 10)).map (fun s => s.rawValue) =
      List.replicate 8 10 :=
  (C10_raw_update_isolation defaultScales (List.replicate 8 10) []).1.2.2.2.2
    (by decide) (by decide)

end Loadcell
